import Mathlib

/-!
Verification of the research-orchestration core of the Agent-J repository.

The TypeScript sources are shallowly embedded as Lean definitions:

* JS strings are modelled as `String` (or `List Char` where line-level
  reasoning is needed, e.g. the memory manager's buffers);
* JS `Date` values are modelled as integer epoch-milliseconds (`Int`);
* `nanoid()` identifier generation is modelled by threading a `Nat`
  counter (identifiers are opaque fresh tokens; no claim depends on
  their shape);
* a fallible JS call is modelled as `Except String _`; a `try`/`catch`
  block becomes a `match` on that value;
* the LLM invocation layer (`invokeLLM`) is an oracle parameter: any
  function from the task to an `LLMOutcome`.
-/

namespace AgentJ

/-- A JavaScript runtime value as far as the agent pipeline inspects one:
`task.result` can be a string, the array produced by `handleToolCalls`
(modelled by its length), a number (dates), or `null`/`undefined`
(both collapsed to `vNull`; the pipeline only ever tests truthiness and
stringifies, which agree on the two). -/
inductive JsVal : Type where
  | vNull : JsVal
  | vStr (s : String) : JsVal
  | vArr (n : Nat) : JsVal
  | vNum (i : Int) : JsVal
deriving DecidableEq

/-- JS truthiness of a possibly-absent value (`undefined` is `none`). -/
def JsVal.truthy : Option JsVal → Bool
  | none => false
  | some .vNull => false
  | some (.vStr s) => s ≠ ""
  | some (.vArr _) => true
  | some (.vNum i) => i ≠ 0

/-- JS `String(v)` on the values the pipeline stringifies. -/
def JsVal.asString : Option JsVal → String
  | none => "undefined"
  | some .vNull => "null"
  | some (.vStr s) => s
  | some (.vArr n) => String.intercalate "," (List.replicate n "[object Object]")
  | some (.vNum i) => toString i

/-- `AgentStatus` from `src/server/_core/agents/types.ts`. -/
inductive AgentStatus : Type where
  | idle | thinking | executing | waiting | completed | failed
deriving DecidableEq

/-- `AgentTask` from `src/server/_core/agents/types.ts`.  The `context`
mapping is omitted: it only flows into prompt text, which the oracle
already sees through the whole task. -/
structure AgentTask where
  id : Nat
  agentRole : String
  description : String
  status : AgentStatus
  createdAt : Int
  updatedAt : Int
  result : Option JsVal := none
  error : Option String := none
deriving DecidableEq

/-- `ResearchArtifact` from `types.ts`; `metadata` is an association list
of JS values. -/
structure ResearchArtifact where
  id : Nat
  taskId : Nat
  type : String
  content : String
  metadata : List (String × JsVal)
  createdAt : Int
  retrievedAt : Int
deriving DecidableEq

/-- `Citation` from `types.ts`. -/
structure Citation where
  id : Nat
  artifactId : Nat
  source : String
  url : String
  title : Option String := none
  accessedAt : Int
deriving DecidableEq

/-- `ResearchPlan` from `types.ts`. -/
structure ResearchPlan where
  id : Nat
  sessionId : Nat
  userId : Nat
  query : String
  objectives : List String
  strategy : String
  estimatedSteps : Nat
  createdAt : Int
  updatedAt : Int
deriving DecidableEq

/-- The memory record built by `MemoryManager.initializeMemory`
(`src/server/_core/agents/memoryManager.ts`).  The text buffers are kept
as `List Char` so that line-splitting can be reasoned about directly. -/
structure ResearchMemory where
  sessionId : Nat
  shortTermMemory : List Char
  longTermMemory : List Char
  findings : List ResearchArtifact
  lastUpdated : Int
deriving DecidableEq

/-- The private `memories : Map<number, ResearchMemory>` of a
`MemoryManager` instance, as an association list. -/
structure MMState where
  memories : List (Nat × ResearchMemory)
deriving DecidableEq

/-- JS `Map.prototype.get` on the association list. -/
def mmFind : List (Nat × ResearchMemory) → Nat → Option ResearchMemory
  | [], _ => none
  | (k, m) :: rest, sid => if sid = k then some m else mmFind rest sid

/-- JS `Map.prototype.set`: replace the entry in place if the key is
present, otherwise append. -/
def mmSet (st : MMState) (sid : Nat) (m : ResearchMemory) : MMState :=
  if (mmFind st.memories sid).isSome then
    ⟨st.memories.map (fun p => (p.1, if p.1 = sid then m else p.2))⟩
  else
    ⟨st.memories ++ [(sid, m)]⟩

/-- `MemoryManager.getMemory`. -/
def getMemory (st : MMState) (sid : Nat) : Option ResearchMemory :=
  mmFind st.memories sid

/-- `MemoryManager`'s `maxShortTermTokens`. -/
def maxShortTermTokens : Nat := 4000

/-- `MemoryManager`'s `maxLongTermTokens`. -/
def maxLongTermTokens : Nat := 16000

/-- `MemoryManager.estimateTokens`: `Math.ceil(text.length / 4)`. -/
def estimateTokens (text : List Char) : Nat := (text.length + 3) / 4

/-- JS `memory.split("\n")` on a `List Char` buffer. -/
def splitLines : List Char → List (List Char)
  | [] => [[]]
  | c :: rest =>
    let r := splitLines rest
    if c = '\n' then [] :: r else (c :: r.headI) :: r.tail

/-- Inverse of `splitLines`: rejoin lines with `'\n'` separators. -/
def joinLines : List (List Char) → List Char
  | [] => []
  | [l] => l
  | l :: rest => l ++ '\n' :: joinLines rest

/-- The loop body of `MemoryManager.compressMemory`: accumulate lines
(each re-suffixed with `'\n'`) while the running token estimate stays
within `maxTokens`; `break` at the first line that would exceed it. -/
def compressLoop (maxTokens : Nat) : List (List Char) → Nat → List Char → List Char
  | [], _, acc => acc
  | line :: rest, tokens, acc =>
    if tokens + estimateTokens line ≤ maxTokens then
      compressLoop maxTokens rest (tokens + estimateTokens line) (acc ++ line ++ ['\n'])
    else acc

/-- The truncation marker appended by `compressMemory`. -/
def truncMarker : List Char := "\n[... memory compressed ...]".toList

/-- `MemoryManager.compressMemory`. -/
def compressMemory (memory : List Char) (maxTokens : Nat) : List Char :=
  let compressed := compressLoop maxTokens (splitLines memory) 0 []
  if compressed.length < memory.length then compressed ++ truncMarker else compressed

/-- `MemoryManager.initializeMemory`: build an empty record and `set` it
into the map, unconditionally. -/
def initMemory (st : MMState) (sid : Nat) (now : Int) : MMState :=
  mmSet st sid ⟨sid, [], [], [], now⟩

/-- The record `initializeMemory` stores and returns. -/
def emptyMemory (sid : Nat) (now : Int) : ResearchMemory :=
  ⟨sid, [], [], [], now⟩

/-- `MemoryManager.updateShortTermMemory`. -/
def updateShortTermMemory (st : MMState) (sid : Nat) (context : List Char) (now : Int) :
    MMState :=
  match getMemory st sid with
  | none => st
  | some m =>
    let combined := m.shortTermMemory ++ '\n' :: context
    let next :=
      if estimateTokens combined > maxShortTermTokens then
        compressMemory combined maxShortTermTokens
      else combined
    mmSet st sid { m with shortTermMemory := next, lastUpdated := now }

/-- The per-artifact summary line rendered by `updateLongTermMemory`. -/
def findingSummaryLine (f : ResearchArtifact) : List Char :=
  ('[' :: f.type.toList) ++ "] ".toList ++ (f.content.toList.take 200) ++ "...".toList

/-- `MemoryManager.updateLongTermMemory`. -/
def updateLongTermMemory (st : MMState) (sid : Nat) (findings : List ResearchArtifact)
    (now : Int) : MMState :=
  match getMemory st sid with
  | none => st
  | some m =>
    let summary := joinLines (findings.map findingSummaryLine)
    let combined := m.longTermMemory ++ '\n' :: summary
    let next :=
      if estimateTokens combined > maxLongTermTokens then
        compressMemory combined maxLongTermTokens
      else combined
    mmSet st sid { m with longTermMemory := next, lastUpdated := now }

/-- `MemoryManager.clearMemory`. -/
def clearMemory (st : MMState) (sid : Nat) : MMState :=
  ⟨st.memories.filter (fun p => p.1 ≠ sid)⟩

/-- States of a `MemoryManager` reachable from a fresh instance through
its public mutating operations. -/
inductive MMReach : MMState → Prop where
  | fresh : MMReach ⟨[]⟩
  | init (st sid now) : MMReach st → MMReach (initMemory st sid now)
  | shortTerm (st sid ctx now) : MMReach st → MMReach (updateShortTermMemory st sid ctx now)
  | longTerm (st sid fs now) : MMReach st → MMReach (updateLongTermMemory st sid fs now)
  | clear (st sid) : MMReach st → MMReach (clearMemory st sid)

/-- The hour difference computed by `OrchestratorAgent.verifyFreshness`
(`src/server/_core/agents/financialAnalystAgent.ts` concatenation,
`orchestratorAgent` part): `Math.abs(now - retrieved) / (1000*60*60)`,
as an exact rational (the float computation is exact on the integral
boundary cases the spec singles out). -/
def hoursDiff (now retrieved : Int) : ℚ :=
  ((now - retrieved).natAbs : ℚ) / (1000 * 60 * 60)

/-- `OrchestratorAgent.verifyFreshness`: push each artifact whose
`hoursDiff` strictly exceeds the threshold. -/
def verifyFreshness (now : Int) : List ResearchArtifact → (th : ℚ := 24) →
    List ResearchArtifact
  | [], _ => []
  | a :: rest, th =>
    if hoursDiff now a.retrievedAt > th then a :: verifyFreshness now rest th
    else verifyFreshness now rest th

/-- Case-insensitive scan modelling `response.match(/step|task|phase/gi)`:
the input is the lower-cased character list; at each position the
alternatives are tried in order and a match consumes its length,
otherwise the scan advances one character (leftmost, non-overlapping
matches, exactly as the JS global regex counts them). -/
def kwScan : List Char → Nat
  | 's' :: 't' :: 'e' :: 'p' :: rest => 1 + kwScan rest
  | 't' :: 'a' :: 's' :: 'k' :: rest => 1 + kwScan rest
  | 'p' :: 'h' :: 'a' :: 's' :: 'e' :: rest => 1 + kwScan rest
  | _ :: rest => kwScan rest
  | [] => 0

/-- Number of `/step|task|phase/gi` matches in a response string. -/
def kwMatchCount (response : String) : Nat :=
  kwScan (response.toList.map Char.toLower)

/-- `OrchestratorAgent.estimateSteps`:
`Math.max((response.match(/step|task|phase/gi) || []).length, 3)`. -/
def estimateSteps (response : String) : Nat :=
  Nat.max (kwMatchCount response) 3

/-- JS `String.prototype.includes`: does `pat` occur contiguously in the
line? -/
def containsSeq (pat : List Char) : List Char → Bool
  | [] => pat.isEmpty
  | c :: rest => pat.isPrefixOf (c :: rest) || containsSeq pat rest

/-- `OrchestratorAgent.extractObjectives`: lines of the response that
contain "objective" or "goal" (case-sensitive `String.includes`),
capped at 5. -/
def extractObjectives (response : String) : List String :=
  (((splitLines response.toList).filter
      (fun l => containsSeq "objective".toList l || containsSeq "goal".toList l)).take 5).map
    (fun l => String.mk l)

/-- JS `String.prototype.trim` on a character list. -/
def trimChars (l : List Char) : List Char :=
  ((l.dropWhile Char.isWhitespace).reverse.dropWhile Char.isWhitespace).reverse

/-- The anchored bullet test `line.match(/^\d+\.|^-|^•/)` of
`parseTasksFromResponse`, returning the line with the matched bullet
stripped (the `replace` of the same regex) when it matches. -/
def stripBullet (l : List Char) : Option (List Char) :=
  let digits := l.takeWhile Char.isDigit
  if digits ≠ [] ∧ (l.drop digits.length).headI = '.' then
    some (l.drop (digits.length + 1))
  else
    match l with
    | '-' :: rest => some rest
    | '•' :: rest => some rest
    | _ => none

/-- One parsed task of `OrchestratorAgent.parseTasksFromResponse`. -/
def mkSearchTask (now : Int) (id : Nat) (descr : List Char) : AgentTask :=
  { id := id, agentRole := "searcher", description := String.mk (trimChars descr),
    status := .idle, createdAt := now, updatedAt := now }

/-- The loop of `parseTasksFromResponse`: keep the non-blank lines that
carry an enumeration bullet, building a `searcher` task from each. -/
def parseTaskLines (now : Int) : List (List Char) → Nat → List AgentTask
  | [], _ => []
  | l :: rest, ctr =>
    match stripBullet l with
    | some d => mkSearchTask now ctr d :: parseTaskLines now rest (ctr + 1)
    | none => parseTaskLines now rest ctr

/-- `OrchestratorAgent.parseTasksFromResponse`: split into lines, drop
blank-after-trim lines, parse bulleted lines, keep at most 5 tasks. -/
def parseTasksFromResponse (now : Int) (response : String) (ctr : Nat) : List AgentTask :=
  let lines := (splitLines response.toList).filter (fun l => trimChars l ≠ [])
  (parseTaskLines now lines ctr).take 5

/-- What the LLM layer does on one `invokeLLM` call, as seen by
`BaseAgent.execute` (`src/unnamed/part_008`): the promise rejects
(`throw`), resolves without `choices[0]?.message` (`noChoice`), or
resolves with a message carrying optional text content and a number of
tool calls. -/
inductive LLMOutcome : Type where
  | throw (msg : String)
  | noChoice
  | message (content : Option String) (toolCalls : Nat)

/-- An arbitrary behaviour of the LLM layer over a whole run. -/
def LLMBehavior : Type := AgentTask → LLMOutcome

/-- The task as first mutated by `BaseAgent.execute`: status `thinking`,
timestamp refreshed. -/
def thinkingTask (now : Int) (task : AgentTask) : AgentTask :=
  { task with status := .thinking, updatedAt := now }

/-- The `try` body of `BaseAgent.execute`: mark the task `thinking`,
invoke the LLM, and either throw, or complete the task with the tool
call results (an array) or the message content. -/
def executeTry (b : LLMBehavior) (now : Int) (task : AgentTask) : Except String AgentTask :=
  match b (thinkingTask now task) with
  | .throw m => .error m
  | .noChoice => .error "No response from LLM"
  | .message content 0 =>
    .ok { thinkingTask now task with
          status := .completed
          result := some ((content.map JsVal.vStr).getD JsVal.vNull)
          updatedAt := now }
  | .message _ (k + 1) =>
    .ok { thinkingTask now task with
          status := .completed
          result := some (.vArr (k + 1))
          updatedAt := now }

/-- `BaseAgent.execute`: the `try` body under the catch-all handler that
marks the task `failed` and records the error message. -/
def execute (b : LLMBehavior) (now : Int) (task : AgentTask) : AgentTask :=
  match executeTry b now task with
  | .error m =>
    { task with status := .failed, error := some m, updatedAt := now }
  | .ok t => t

/-- `BaseAgent.execute` as its callers see it: a promise that either
rejects (`.error`) or resolves (`.ok`).  Because of the catch-all
handler it always resolves. -/
def executeE (b : LLMBehavior) (now : Int) (task : AgentTask) : Except String AgentTask :=
  .ok (execute b now task)

/-- A possibly-throwing worker call, the shape coordinator code awaits
inside its `try` blocks. -/
def Worker : Type := AgentTask → Except String AgentTask

/-- Output of `ResearchCoordinator.executeTask` and `executeTasks`
(`src/server/_core/agents/researchCoordinator.ts`): the artifacts and
citations produced, the completed tasks recorded in
`state.completedTasks`, the advanced id counter, and how many times the
`catch` branch ran. -/
structure TaskRunOut where
  findings : List ResearchArtifact
  citations : List Citation
  completed : List AgentTask
  ctr : Nat
  caught : Nat
deriving DecidableEq

/-- `ResearchCoordinator.executeTask`: run the search agent on the task;
a truthy result yields one `finding` artifact plus one citation; the
returned task is always recorded; a thrown worker call is caught and
contributes nothing. -/
def executeTask (worker : Worker) (now : Int) (ctr : Nat) (task : AgentTask) : TaskRunOut :=
  match worker task with
  | .error _ => ⟨[], [], [], ctr, 1⟩
  | .ok result =>
    if JsVal.truthy result.result then
      let artifact : ResearchArtifact :=
        { id := ctr, taskId := task.id, type := "finding",
          content := JsVal.asString result.result,
          metadata := [("taskDescription", .vStr task.description), ("executedAt", .vNum now)],
          createdAt := now, retrievedAt := now }
      let citation : Citation :=
        { id := ctr + 1, artifactId := ctr, source := "Research Task", url := "",
          accessedAt := now }
      ⟨[artifact], [citation], [result], ctr + 2, 0⟩
    else ⟨[], [], [result], ctr, 0⟩

/-- The static batching of `executeTasks`: `tasks.slice(i, i + 3)` for
`i = 0, 3, 6, ...` (spelled out per batch size so the recursion is
structural). -/
def chunks3 : List AgentTask → List (List AgentTask)
  | [] => []
  | [a] => [[a]]
  | [a, b] => [[a, b]]
  | a :: b :: c :: rest => [a, b, c] :: chunks3 rest

/-- Sequential composition of the per-task results of one batch.  Within
a real batch the three promises run concurrently; `Promise.all` returns
their results in dispatch order, so the artifact list is deterministic.
Citation-push interleaving inside a batch is not (the spec exempts
intra-batch order); this model fixes dispatch order for it. -/
def runBatch (worker : Worker) (now : Int) : List AgentTask → Nat → TaskRunOut
  | [], ctr => ⟨[], [], [], ctr, 0⟩
  | t :: rest, ctr =>
    let r := executeTask worker now ctr t
    let rs := runBatch worker now rest r.ctr
    ⟨r.findings ++ rs.findings, r.citations ++ rs.citations, r.completed ++ rs.completed,
      rs.ctr, r.caught + rs.caught⟩

/-- `ResearchCoordinator.executeTasks`: run the batches of 3 strictly in
sequence, concatenating the findings each batch produced. -/
def executeTasksLoop (worker : Worker) (now : Int) : List (List AgentTask) → Nat → TaskRunOut
  | [], ctr => ⟨[], [], [], ctr, 0⟩
  | b :: rest, ctr =>
    let r := runBatch worker now b ctr
    let rs := executeTasksLoop worker now rest r.ctr
    ⟨r.findings ++ rs.findings, r.citations ++ rs.citations, r.completed ++ rs.completed,
      rs.ctr, r.caught + rs.caught⟩

/-- `ResearchCoordinator.executeTasks`. -/
def executeTasks (worker : Worker) (now : Int) (tasks : List AgentTask) (ctr : Nat) :
    TaskRunOut :=
  executeTasksLoop worker now (chunks3 tasks) ctr

/-- An observable scheduling event of `executeTasks`: a task of batch
`batch` is dispatched, or reaches a terminal state.  The batch index is
the loop's `i / 3`. -/
inductive BatchEvent : Type where
  | start (batch : Nat) (taskId : Nat)
  | finish (batch : Nat) (taskId : Nat)
deriving DecidableEq

/-- The batch index an event belongs to. -/
def BatchEvent.batchOf : BatchEvent → Nat
  | .start b _ => b
  | .finish b _ => b

/-- +1 for a dispatch, −1 for a completion. -/
def BatchEvent.delta : BatchEvent → Int
  | .start _ _ => 1
  | .finish _ _ => -1

/-- Number of in-flight tasks after a list of events. -/
def openCount (tr : List BatchEvent) : Int :=
  (tr.map BatchEvent.delta).sum

/-- The event block one batch contributes: `batch.map(executeTask)`
synchronously dispatches every task of the batch before any of them can
settle (the event loop runs each `executeTask` up to its first `await`),
then `await Promise.all` sees them finish in some order `fin`. -/
def blockTrace (idx : Nat) (dispatched fin : List AgentTask) : List BatchEvent :=
  dispatched.map (fun t => .start idx t.id) ++ fin.map (fun t => .finish idx t.id)

/-- The full event trace of `executeTasks`: batch `k + 1`'s block begins
only after batch `k`'s block — the loop body awaits the whole batch
before the next iteration.  `fins` fixes, per batch, the order in which
its tasks settled. -/
def scheduleTraceFrom (idx : Nat) : List (List AgentTask × List AgentTask) → List BatchEvent
  | [] => []
  | p :: rest => blockTrace idx p.1 p.2 ++ scheduleTraceFrom (idx + 1) rest

/-- Trace of a run of `executeTasks` over the given batch/settle-order
pairs. -/
def scheduleTrace (pairs : List (List AgentTask × List AgentTask)) : List BatchEvent :=
  scheduleTraceFrom 0 pairs

/-- Output of the sequential analysis/verification passes. -/
structure StageOut where
  artifacts : List ResearchArtifact
  ctr : Nat
  caught : Nat
deriving DecidableEq

/-- The `extractor` task `analyzeFindings` builds for a finding. -/
def mkAnalyzeTask (ctr : Nat) (now : Int) (f : ResearchArtifact) : AgentTask :=
  { id := ctr, agentRole := "extractor",
    description := "Analyze and extract key insights from: " ++ f.content.take 100,
    status := .idle, createdAt := now, updatedAt := now }

/-- The loop of `ResearchCoordinator.analyzeFindings`: each of the first
5 findings goes sequentially through the extraction agent; a truthy
result yields an `analysis` artifact; failures are caught and skipped. -/
def analyzeLoop (worker : Worker) (now : Int) :
    List ResearchArtifact → Nat → StageOut
  | [], ctr => ⟨[], ctr, 0⟩
  | f :: rest, ctr =>
    let t := mkAnalyzeTask ctr now f
    match worker t with
    | .error _ =>
      let rs := analyzeLoop worker now rest (ctr + 1)
      ⟨rs.artifacts, rs.ctr, rs.caught + 1⟩
    | .ok res =>
      if JsVal.truthy res.result then
        let a : ResearchArtifact :=
          { id := ctr + 1, taskId := t.id, type := "analysis",
            content := JsVal.asString res.result,
            metadata := [("sourceArtifactId", .vNum (f.id : Int))],
            createdAt := now, retrievedAt := now }
        let rs := analyzeLoop worker now rest (ctr + 2)
        ⟨a :: rs.artifacts, rs.ctr, rs.caught⟩
      else
        let rs := analyzeLoop worker now rest (ctr + 1)
        ⟨rs.artifacts, rs.ctr, rs.caught⟩

/-- `ResearchCoordinator.analyzeFindings`. -/
def analyzeFindings (worker : Worker) (now : Int) (findings : List ResearchArtifact)
    (ctr : Nat) : StageOut :=
  analyzeLoop worker now (findings.take 5) ctr

/-- The `fact_checker` task `verifyFindings` builds for a finding. -/
def mkVerifyTask (ctr : Nat) (now : Int) (f : ResearchArtifact) : AgentTask :=
  { id := ctr, agentRole := "fact_checker",
    description := "Verify the accuracy of: " ++ f.content.take 100,
    status := .idle, createdAt := now, updatedAt := now }

/-- The new `verified` artifact spread from the original on fact-check
success: same content, fresh identifier, verification payload added to
the metadata. -/
def promoteVerified (newId : Nat) (f : ResearchArtifact) (r : Option JsVal) :
    ResearchArtifact :=
  { f with
    id := newId
    type := "verified"
    metadata := f.metadata ++ [("verificationResult", r.getD .vNull)] }

/-- The loop of `ResearchCoordinator.verifyFindings`: each of the first 5
findings goes sequentially through the fact-check agent; a truthy result
pushes a new `verified` artifact; a *thrown* call is caught and pushes
the original; a falsy result pushes nothing. -/
def verifyLoop (worker : Worker) (now : Int) :
    List ResearchArtifact → Nat → List ResearchArtifact → Nat → StageOut
  | [], ctr, verified, caught => ⟨verified, ctr, caught⟩
  | f :: rest, ctr, verified, caught =>
    let t := mkVerifyTask ctr now f
    match worker t with
    | .error _ => verifyLoop worker now rest (ctr + 1) (verified ++ [f]) (caught + 1)
    | .ok res =>
      if JsVal.truthy res.result then
        verifyLoop worker now rest (ctr + 2)
          (verified ++ [promoteVerified (ctr + 1) f res.result]) caught
      else verifyLoop worker now rest (ctr + 1) verified caught

/-- `ResearchCoordinator.verifyFindings`, including the final fallback
`verified.length > 0 ? verified : findings`. -/
def verifyFindings (worker : Worker) (now : Int) (findings : List ResearchArtifact)
    (ctr : Nat) : StageOut :=
  let r := verifyLoop worker now (findings.take 5) ctr [] 0
  ⟨if r.artifacts.isEmpty then findings else r.artifacts, r.ctr, r.caught⟩

/-- `OrchestratorAgent.planResearch` given a worker call: build the
planning task, run it, and parse `result.result` — a non-string result
makes the parse helpers throw a `TypeError` (`.split` on a non-string),
which propagates. -/
def planResearchE (worker : Worker) (now : Int) (sid : Nat) (query : String) (ctr : Nat) :
    Except String (ResearchPlan × Nat) :=
  let t : AgentTask :=
    { id := ctr, agentRole := "orchestrator",
      description := "Create a detailed research plan for: " ++ query,
      status := .idle, createdAt := now, updatedAt := now }
  match worker t with
  | .error m => .error m
  | .ok r =>
    match r.result with
    | some (.vStr s) =>
      .ok ({ id := ctr + 1, sessionId := sid, userId := 0, query := query,
             objectives := extractObjectives s, strategy := s,
             estimatedSteps := estimateSteps s,
             createdAt := now, updatedAt := now }, ctr + 2)
    | _ => .error "TypeError: response.split is not a function"

/-- `OrchestratorAgent.decomposeTasks` given a worker call. -/
def decomposeTasksE (worker : Worker) (now : Int) (query : String) (ctr : Nat) :
    Except String (List AgentTask × Nat) :=
  let t : AgentTask :=
    { id := ctr, agentRole := "orchestrator",
      description := "Decompose this research query into specific sub-tasks: " ++ query,
      status := .idle, createdAt := now, updatedAt := now }
  match worker t with
  | .error m => .error m
  | .ok r =>
    match r.result with
    | some (.vStr s) =>
      let tasks := parseTasksFromResponse now s (ctr + 1)
      .ok (tasks, ctr + 1 + tasks.length)
    | _ => .error "TypeError: response.split is not a function"

/-- `OrchestratorAgent.synthesizeFindings` given a worker call: run the
synthesis task and return `result.result` unchanged (the TS `as string`
cast does not inspect the value). -/
def synthesizeFindingsE (worker : Worker) (now : Int) (ctr : Nat) :
    Except String (Option JsVal × Nat) :=
  let t : AgentTask :=
    { id := ctr, agentRole := "orchestrator",
      description := "Synthesize all research findings into a comprehensive report",
      status := .idle, createdAt := now, updatedAt := now }
  match worker t with
  | .error m => .error m
  | .ok r => .ok (r.result, ctr + 1)

/-- `ResearchResult` from `researchCoordinator.ts` (the report is the
raw runtime value the synthesis call produced). -/
structure ResearchResult where
  sessionId : Nat
  query : String
  report : Option JsVal
  findings : List ResearchArtifact
  citations : List Citation
  executionTime : Int
deriving DecidableEq

/-- The LLM behaviours of the four agent instances a
`ResearchCoordinator` constructs. -/
structure Oracles where
  orch : LLMBehavior
  search : LLMBehavior
  extract : LLMBehavior
  fact : LLMBehavior

/-- What one `executeResearch` invocation did: its returned value or
thrown error, whether the stale-findings warning was printed, and the
final memory-manager state. -/
structure RunOut where
  result : Except String ResearchResult
  staleWarned : Bool
  memory : MMState

/-- The stale findings computed at the start of the planning phase:
`verifyFreshness` over the stored findings of the session's freshly
initialized memory record (`researchCoordinator.ts` lines 73-75). -/
def planningStaleFindings (now : Int) (sid : Nat) : List ResearchArtifact :=
  let mm0 := initMemory ⟨[]⟩ sid now
  verifyFreshness now (((getMemory mm0 sid).map (·.findings)).getD []) 24

/-- `ResearchCoordinator.executeResearch`, as one pure function of the
agents' LLM behaviours.  The five phases run in sequence; planning and
decomposition failures propagate (the outer `catch` rethrows); task,
analysis and verification failures are absorbed by the stage functions. -/
def runResearchBody (o : Oracles) (now : Int) (sid : Nat) (query : String) (ctr : Nat) :
    Except String ResearchResult × MMState :=
  let mm0 := initMemory ⟨[]⟩ sid now
  match planResearchE (executeE o.orch now) now sid query ctr with
  | .error m => (.error m, mm0)
  | .ok (_plan, ctr1) =>
    match decomposeTasksE (executeE o.orch now) now query ctr1 with
    | .error m => (.error m, mm0)
    | .ok (tasks, ctr2) =>
      let s := executeTasks (executeE o.search now) now tasks ctr2
      let mm1 := updateShortTermMemory mm0 sid
        ("Found " ++ toString s.findings.length ++ " initial findings").toList now
      let a := analyzeFindings (executeE o.extract now) now s.findings s.ctr
      let v := verifyFindings (executeE o.fact now) now (s.findings ++ a.artifacts) a.ctr
      match synthesizeFindingsE (executeE o.orch now) now v.ctr with
      | .error m => (.error m, mm1)
      | .ok (report, _) =>
        (.ok { sessionId := sid, query := query, report := report,
               findings := v.artifacts, citations := s.citations, executionTime := 0 },
          updateLongTermMemory mm1 sid v.artifacts now)

/-- `executeResearch` packaged with its observable side effects: the
result or error, whether `staleFindings.length > 0` made the planning
phase print its warning, and the final memory state. -/
def runResearch (o : Oracles) (now : Int) (sid : Nat) (query : String) (ctr : Nat) :
    RunOut :=
  ⟨(runResearchBody o now sid query ctr).1,
    decide (0 < (planningStaleFindings now sid).length),
    (runResearchBody o now sid query ctr).2⟩

/-- The searching / analyzing / verifying stage outputs of a run whose
planning and decomposition succeeded (recomputed by the same stage
functions `runResearch` uses). -/
def runStages (o : Oracles) (now : Int) (sid : Nat) (query : String) (ctr : Nat) :
    Option (TaskRunOut × StageOut × StageOut) :=
  match planResearchE (executeE o.orch now) now sid query ctr with
  | .error _ => none
  | .ok (_plan, ctr1) =>
    match decomposeTasksE (executeE o.orch now) now query ctr1 with
    | .error _ => none
    | .ok (tasks, ctr2) =>
      let s := executeTasks (executeE o.search now) now tasks ctr2
      let a := analyzeFindings (executeE o.extract now) now s.findings s.ctr
      let v := verifyFindings (executeE o.fact now) now (s.findings ++ a.artifacts) a.ctr
      some (s, a, v)

/-- The response of the `startResearch` procedure
(`src/server/routers/deepResearch.ts`). -/
structure StartResearchOut where
  success : Bool
  report : Option JsVal
  findingsCount : Nat
  citationsCount : Nat
  executionTime : Int
deriving DecidableEq

/-- `deepResearchRouter.startResearch`: validate the query length, run
the coordinator, and report the counts of the returned findings and
citations (database persistence is outside the model). -/
def startResearch (o : Oracles) (now : Int) (sid : Nat) (query : String) (ctr : Nat) :
    Except String StartResearchOut :=
  if query.length < 10 then .error "Query must be at least 10 characters"
  else
    match (runResearch o now sid query ctr).result with
    | .error m => .error m
    | .ok res =>
      .ok { success := true, report := res.report,
            findingsCount := res.findings.length,
            citationsCount := res.citations.length,
            executionTime := res.executionTime }

/-- Spec-side reading of the freshness predicate (claim C2): the *age*
`now − retrievedAt`, taken as a signed quantity, strictly exceeds the
threshold.  To be compared with the implementation's absolute
difference. -/
def specAgeExceeds (now retrieved : Int) (th : ℚ) : Prop :=
  ((now - retrieved : Int) : ℚ) / (1000 * 60 * 60) > th

/-- Spec-side reading of the step estimate (claim C6): the number of
*lines* of the response containing "step", "task" or "phase",
case-insensitively. -/
def kwLineCount (response : String) : Nat :=
  ((splitLines response.toList).filter
    (fun l =>
      let lw := l.map Char.toLower
      containsSeq "step".toList lw || containsSeq "task".toList lw ||
        containsSeq "phase".toList lw)).length

/-- Number of leading lines the compression loop keeps: lines are
accepted greedily while the running token estimate stays within the
budget; the first overflowing line stops the count. -/
def keepCount (maxTokens : Nat) : List (List Char) → Nat → Nat
  | [], _ => 0
  | line :: rest, tokens =>
    if tokens + estimateTokens line ≤ maxTokens then
      keepCount maxTokens rest (tokens + estimateTokens line) + 1
    else 0

/-- The first `k` lines, each re-suffixed with `'\n'`, concatenated:
the exact text `compressLoop` accumulates. -/
def keptPart (lines : List (List Char)) (k : Nat) : List Char :=
  ((lines.take k).map (fun l => l ++ ['\n'])).flatten

/-! ## Theorems -/

theorem mmFind_map_set (l : List (Nat × ResearchMemory)) (sid : Nat) (m : ResearchMemory)
    (sid' : Nat) :
    mmFind (l.map (fun p => (p.1, if p.1 = sid then m else p.2))) sid' =
      if sid' = sid then (if (mmFind l sid).isSome then some m else none)
      else mmFind l sid' := by
  induction l with
  | nil => simp [mmFind]
  | cons p rest ih =>
    obtain ⟨k, b⟩ := p
    by_cases hk : k = sid
    · subst hk
      by_cases hs : sid' = k <;> simp [mmFind, hs, ih]
    · by_cases hs : sid' = k
      · subst hs
        simp [mmFind, hk, Ne.symm hk]
      · by_cases hsid : sid' = sid
        · subst hsid
          simp [mmFind, hs, ih]
        · simp [mmFind, hk, hs, ih, hsid]

theorem mmFind_append_single (l : List (Nat × ResearchMemory)) (sid : Nat)
    (m : ResearchMemory) (sid' : Nat) :
    mmFind (l ++ [(sid, m)]) sid' =
      match mmFind l sid' with
      | some b => some b
      | none => if sid' = sid then some m else none := by
  induction l with
  | nil => simp [mmFind]
  | cons p rest ih =>
    obtain ⟨k, b⟩ := p
    by_cases hs : sid' = k <;> simp [mmFind, hs, ih]

theorem getMemory_mmSet (st : MMState) (sid : Nat) (m : ResearchMemory) (sid' : Nat) :
    getMemory (mmSet st sid m) sid' = if sid' = sid then some m else getMemory st sid' := by
  unfold getMemory mmSet
  by_cases h : (mmFind st.memories sid).isSome
  · simp only [h, if_pos, if_true]
    rw [mmFind_map_set]
    by_cases hs : sid' = sid <;> simp [hs, h]
  · simp only [h, if_false, Bool.false_eq_true]
    rw [mmFind_append_single]
    by_cases hs : sid' = sid
    · subst hs
      cases hf : mmFind st.memories sid' with
      | none => simp
      | some b => rw [hf] at h; simp at h
    · cases hf : mmFind st.memories sid' <;> simp [hs]

/-- C5 (counterexample): `initializeMemory` on a session that already
has a memory record does not fail with `AlreadyInitialized` — it
silently replaces the record.  After appending "x" to session 1's
short-term memory, a second `initializeMemory` leaves an empty record
where the populated one was. -/
theorem C5_counterexample :
    (getMemory (updateShortTermMemory (initMemory ⟨[]⟩ 1 0) 1 "x".toList 0) 1).isSome = true ∧
    getMemory (initMemory (updateShortTermMemory (initMemory ⟨[]⟩ 1 0) 1 "x".toList 0) 1 0) 1
      = some (emptyMemory 1 0) ∧
    getMemory (initMemory (updateShortTermMemory (initMemory ⟨[]⟩ 1 0) 1 "x".toList 0) 1 0) 1
      ≠ getMemory (updateShortTermMemory (initMemory ⟨[]⟩ 1 0) 1 "x".toList 0) 1 := by
  decide

/-- C5 (amended): memory initialization for a session creates an empty
memory record and stores it unconditionally — an existing record for
that session is silently replaced (there is no `AlreadyInitialized`
failure path), and records of other sessions are untouched. -/
theorem C5_init_overwrites : ∀ (st : MMState) (sid : Nat) (now : Int),
    getMemory (initMemory st sid now) sid = some (emptyMemory sid now) ∧
    ∀ sid', sid' ≠ sid → getMemory (initMemory st sid now) sid' = getMemory st sid' := by
  intro st sid now
  refine ⟨?_, ?_⟩
  · rw [initMemory, getMemory_mmSet]
    simp [emptyMemory]
  · intro sid' h
    rw [initMemory, getMemory_mmSet]
    simp [h]

/-- C5 witness: the amended theorem applied at a fresh manager,
session 1 and reader session 2. -/
theorem C5_init_overwrites_witness :
    getMemory (initMemory ⟨[]⟩ 1 0) 2 = getMemory (⟨[]⟩ : MMState) 2 :=
  (C5_init_overwrites ⟨[]⟩ 1 0).2 2 (by decide)

/-- C2 (counterexample): with `now = 0`, an artifact retrieved 200 hours
in the *future* is returned as stale by `verifyFreshness` with the
default 24-hour threshold, although its age `now − retrievedAt` is
negative and does not exceed the threshold — the implementation
compares `Math.abs(now − retrievedAt)`, not the age. -/
theorem C2_counterexample :
    verifyFreshness 0
        [⟨1, 0, "finding", "x", [], 0, 720000000⟩] 24
      = [⟨1, 0, "finding", "x", [], 0, 720000000⟩] ∧
    ¬ specAgeExceeds 0 720000000 24 := by
  have h : hoursDiff 0 720000000 > (24 : ℚ) := by
    rw [hoursDiff]
    norm_num
  constructor
  · simp [verifyFreshness, h]
  · rw [specAgeExceeds]
    norm_num

/-- C2 (amended): `verifyFreshness` is a pure function returning exactly
the subset of the input artifacts whose *absolute* time difference
`|now − retrievedAt|`, measured in hours, strictly exceeds the
threshold; an artifact at exactly the threshold is not flagged
(strict `>`), any larger difference is. -/
theorem C2_freshness_filter : ∀ (now : Int) (artifacts : List ResearchArtifact) (th : ℚ),
    verifyFreshness now artifacts th
      = artifacts.filter (fun a => decide (hoursDiff now a.retrievedAt > th)) ∧
    ∀ a, a ∈ verifyFreshness now artifacts th ↔
      a ∈ artifacts ∧ hoursDiff now a.retrievedAt > th := by
  intro now artifacts th
  have hf : verifyFreshness now artifacts th
      = artifacts.filter (fun a => decide (hoursDiff now a.retrievedAt > th)) := by
    induction artifacts with
    | nil => rfl
    | cons a rest ih =>
      by_cases h : hoursDiff now a.retrievedAt > th <;>
        simp [verifyFreshness, List.filter, h, ih]
  refine ⟨hf, ?_⟩
  intro a
  rw [hf, List.mem_filter]
  simp

set_option maxRecDepth 4000 in
/-- C6 (counterexample): for the one-line planning response
"step step step step" the parsed plan's `estimatedSteps` is 4 — the
number of keyword *occurrences* — while the claimed formula (lines
containing a keyword, floored at 3) yields 3. -/
theorem C6_counterexample :
    ((planResearchE (executeE (fun _ => .message (some "step step step step") 0) 0) 0 7
        "q" 0).toOption.map (fun p => p.1.estimatedSteps)) = some 4 ∧
    Nat.max (kwLineCount "step step step step") 3 = 3 ∧ (4 : Nat) ≠ 3 := by
  refine ⟨?_, by decide, by decide⟩
  decide

/-- C6 (amended): for every planning response text, the
`estimatedSteps` field of the plan returned by `planResearch` equals
the number of case-insensitive, non-overlapping occurrences of "step",
"task" or "phase" anywhere in the response, floored at a minimum
of 3. -/
theorem C6_steps_from_occurrences :
    ∀ (response : String) (now : Int) (sid : Nat) (query : String) (ctr : Nat),
    planResearchE (executeE (fun _ => .message (some response) 0) now) now sid query ctr
      = .ok ({ id := ctr + 1, sessionId := sid, userId := 0, query := query,
               objectives := extractObjectives response, strategy := response,
               estimatedSteps := Nat.max (kwMatchCount response) 3,
               createdAt := now, updatedAt := now }, ctr + 2) := by
  intro response now sid query ctr
  rfl

theorem verifyLoop_all_throw (w : Worker) (now : Int)
    (h : ∀ ctr f, ∃ m, w (mkVerifyTask ctr now f) = .error m) :
    ∀ (fs : List ResearchArtifact) (ctr : Nat) (acc : List ResearchArtifact) (cg : Nat),
      (verifyLoop w now fs ctr acc cg).artifacts = acc ++ fs := by
  intro fs
  induction fs with
  | nil => intro ctr acc cg; simp [verifyLoop]
  | cons f rest ih =>
    intro ctr acc cg
    obtain ⟨m, hm⟩ := h ctr f
    rw [verifyLoop, hm]
    rw [ih]
    simp

theorem verifyLoop_all_skip (w : Worker) (now : Int)
    (h : ∀ ctr f, ∃ e, w (mkVerifyTask ctr now f) = .ok e ∧ JsVal.truthy e.result = false) :
    ∀ (fs : List ResearchArtifact) (ctr : Nat) (acc : List ResearchArtifact) (cg : Nat),
      (verifyLoop w now fs ctr acc cg).artifacts = acc := by
  intro fs
  induction fs with
  | nil => intro ctr acc cg; rfl
  | cons f rest ih =>
    intro ctr acc cg
    obtain ⟨e, he, ht⟩ := h ctr f
    rw [verifyLoop, he]
    simp only [ht, Bool.false_eq_true, if_false]
    exact ih _ _ _

theorem executeTry_ok_status (b : LLMBehavior) (now : Int) (task t' : AgentTask)
    (h : executeTry b now task = .ok t') : t'.status = .completed := by
  rw [executeTry] at h
  cases hb : b (thinkingTask now task) with
  | throw m => rw [hb] at h; simp at h
  | noChoice => rw [hb] at h; simp at h
  | message content k =>
    rw [hb] at h
    cases k with
    | zero =>
      simp only [Except.ok.injEq] at h
      rw [← h]
    | succ n =>
      simp only [Except.ok.injEq] at h
      rw [← h]

theorem execute_failed_keeps_result (b : LLMBehavior) (now : Int) (t : AgentTask)
    (h : (execute b now t).status = .failed) : (execute b now t).result = t.result := by
  rw [execute] at h ⊢
  cases he : executeTry b now t with
  | error m => rfl
  | ok t' =>
    rw [he] at h
    have := executeTry_ok_status b now t t' he
    rw [this] at h
    simp at h

/-- C3: for every input list of findings, if the fact-check worker fails
(returns a `failed` task) on every call, `verifyFindings` returns
exactly the original findings — the full unverified input list, never
an empty one. -/
theorem C3_all_failed_fallback :
    ∀ (b : LLMBehavior) (now : Int) (findings : List ResearchArtifact) (ctr : Nat),
    (∀ t, (execute b now t).status = .failed) →
    (verifyFindings (executeE b now) now findings ctr).artifacts = findings := by
  intro b now findings ctr h
  have hskip : ∀ ctr' f, ∃ e, (executeE b now) (mkVerifyTask ctr' now f) = .ok e ∧
      JsVal.truthy e.result = false := by
    intro ctr' f
    refine ⟨execute b now (mkVerifyTask ctr' now f), rfl, ?_⟩
    rw [execute_failed_keeps_result b now _ (h _)]
    rfl
  rw [verifyFindings]
  rw [verifyLoop_all_skip (executeE b now) now hskip]
  rfl

/-- C3 witness: a permanently-rejecting LLM fails every verification
task, and the two findings survive unchanged. -/
theorem C3_all_failed_fallback_witness :
    (verifyFindings (executeE (fun _ => .throw "llm down") 0) 0
        [⟨1, 0, "finding", "a", [], 0, 0⟩, ⟨2, 0, "finding", "b", [], 0, 0⟩] 0).artifacts
      = [⟨1, 0, "finding", "a", [], 0, 0⟩, ⟨2, 0, "finding", "b", [], 0, 0⟩] :=
  C3_all_failed_fallback (fun _ => .throw "llm down") 0 _ 0 (fun _ => rfl)

set_option maxRecDepth 4000 in
/-- C1 (counterexample): a processed finding on which the fact-check
*fails* (the worker returns a `failed` task with no result) is silently
dropped when some other finding verified: with finding "a" verifying
and finding "b" failing, the output contains neither "b" itself nor a
verified copy of it. -/
theorem C1_counterexample :
    ¬ (∀ f ∈ ([⟨100, 0, "finding", "a", [], 0, 0⟩,
               ⟨101, 0, "finding", "b", [], 0, 0⟩] : List ResearchArtifact).take 5,
        f ∈ (verifyFindings
              (fun t => if t.description = "Verify the accuracy of: a"
                then .ok { t with status := .completed, result := some (.vStr "ok") }
                else .ok { t with status := .failed, error := some "fact check failed" })
              0
              [⟨100, 0, "finding", "a", [], 0, 0⟩, ⟨101, 0, "finding", "b", [], 0, 0⟩]
              0).artifacts ∨
        ∃ v ∈ (verifyFindings
              (fun t => if t.description = "Verify the accuracy of: a"
                then .ok { t with status := .completed, result := some (.vStr "ok") }
                else .ok { t with status := .failed, error := some "fact check failed" })
              0
              [⟨100, 0, "finding", "a", [], 0, 0⟩, ⟨101, 0, "finding", "b", [], 0, 0⟩]
              0).artifacts,
          v.type = "verified" ∧ v.content = f.content) := by
  decide

/-- C1 (amended): the original artifact is kept in the output only for a
processed finding whose fact-check call *throws* (the `catch` branch);
in particular, when every fact-check call throws, the output is exactly
the processed findings (the first 5), each kept as its original.  A
call that merely completes without a truthy result contributes nothing
and such a finding survives only through the empty-`verified`
fallback. -/
theorem C1_throw_keeps_original :
    ∀ (w : Worker) (now : Int) (findings : List ResearchArtifact) (ctr : Nat),
    (∀ ctr' f, ∃ m, w (mkVerifyTask ctr' now f) = .error m) →
    (verifyFindings w now findings ctr).artifacts = findings.take 5 ∧
    ∀ f ∈ findings.take 5, f ∈ (verifyFindings w now findings ctr).artifacts := by
  intro w now findings ctr h
  have hout : (verifyFindings w now findings ctr).artifacts = findings.take 5 := by
    rw [verifyFindings]
    rw [verifyLoop_all_throw w now h]
    simp only [List.nil_append]
    cases hf : findings.take 5 with
    | nil =>
      have : findings = [] := by
        cases findings with
        | nil => rfl
        | cons a rest => simp at hf
      simp [this]
    | cons a rest => simp
  exact ⟨hout, by rw [hout]; intro f hf; exact hf⟩

/-- C1 witness: with a fact-checker whose calls always throw, both
findings are kept as originals. -/
theorem C1_throw_keeps_original_witness :
    (verifyFindings (fun _ => .error "boom") 0
        [⟨1, 0, "finding", "a", [], 0, 0⟩, ⟨2, 0, "finding", "b", [], 0, 0⟩] 0).artifacts
      = [⟨1, 0, "finding", "a", [], 0, 0⟩, ⟨2, 0, "finding", "b", [], 0, 0⟩] :=
  (C1_throw_keeps_original (fun _ => .error "boom") 0 _ 0
    (fun _ _ => ⟨"boom", rfl⟩)).1

/-- C9: whatever the LLM layer does on each call — throwing included —
`BaseAgent.execute` resolves normally with the task in a terminal
status: `completed`, or `failed` with the error message populated.
Consequently the `catch` branches guarding worker execution in
`executeTask`, `analyzeFindings` and `verifyFindings` never run when
the worker is a `BaseAgent`. -/
theorem C9_execute_never_throws : ∀ (b : LLMBehavior) (now : Int),
    (∀ task, ∃ t', executeE b now task = .ok t' ∧
      (t'.status = .completed ∨ (t'.status = .failed ∧ t'.error.isSome))) ∧
    (∀ ctr task, (executeTask (executeE b now) now ctr task).caught = 0) ∧
    (∀ findings ctr, (analyzeFindings (executeE b now) now findings ctr).caught = 0) ∧
    (∀ findings ctr, (verifyFindings (executeE b now) now findings ctr).caught = 0) := by
  intro b now
  refine ⟨?_, ?_, ?_, ?_⟩
  · intro task
    refine ⟨execute b now task, rfl, ?_⟩
    rw [execute]
    cases he : executeTry b now task with
    | error m => right; exact ⟨rfl, rfl⟩
    | ok t' => left; exact executeTry_ok_status b now task t' he
  · intro ctr task
    rw [executeTask]
    by_cases h : JsVal.truthy (execute b now task).result = true <;>
      simp [executeE, h]
  · intro findings ctr
    rw [analyzeFindings]
    generalize findings.take 5 = fs
    induction fs generalizing ctr with
    | nil => rfl
    | cons f rest ih =>
      rw [analyzeLoop]
      by_cases h : JsVal.truthy (execute b now (mkAnalyzeTask ctr now f)).result = true <;>
        simp [executeE, h, ih]
  · intro findings ctr
    rw [verifyFindings]
    have : ∀ fs ctr acc cg, (verifyLoop (executeE b now) now fs ctr acc cg).caught = cg := by
      intro fs
      induction fs with
      | nil => intro ctr acc cg; rfl
      | cons f rest ih =>
        intro ctr acc cg
        rw [verifyLoop]
        by_cases h : JsVal.truthy (execute b now (mkVerifyTask ctr now f)).result = true <;>
          simp [executeE, h, ih]
    rw [this]

theorem splitLines_ne_nil : ∀ s : List Char, splitLines s ≠ []
  | [] => by simp [splitLines]
  | c :: rest => by
    rw [splitLines]
    by_cases h : c = '\n' <;> simp [h]

theorem joinLines_cons (l : List Char) (r : List (List Char)) (h : r ≠ []) :
    joinLines (l :: r) = l ++ '\n' :: joinLines r := by
  cases r with
  | nil => exact absurd rfl h
  | cons a t => rfl

theorem splitLines_cons_nl (rest : List Char) :
    splitLines ('\n' :: rest) = [] :: splitLines rest := by
  simp [splitLines]

theorem splitLines_cons_ne (c : Char) (rest : List Char) (h : ¬ c = '\n') :
    splitLines (c :: rest)
      = (c :: (splitLines rest).headI) :: (splitLines rest).tail := by
  simp [splitLines, h]

theorem joinLines_splitLines : ∀ s : List Char, joinLines (splitLines s) = s := by
  intro s
  induction s with
  | nil => rfl
  | cons c rest ih =>
    by_cases h : c = '\n'
    · subst h
      rw [splitLines_cons_nl, joinLines_cons _ _ (splitLines_ne_nil rest), ih]
      rfl
    · rw [splitLines_cons_ne c rest h]
      cases hr : splitLines rest with
      | nil => exact absurd hr (splitLines_ne_nil rest)
      | cons hd tl =>
        rw [hr] at ih
        cases tl with
        | nil =>
          simp only [List.headI, List.tail]
          rw [← ih]
          rfl
        | cons b t =>
          simp only [List.headI, List.tail]
          rw [joinLines_cons hd (b :: t) (by simp)] at ih
          rw [joinLines_cons (c :: hd) (b :: t) (by simp), List.cons_append, ih]

theorem keptPart_zero (lines : List (List Char)) : keptPart lines 0 = [] := by
  simp [keptPart]

theorem keptPart_succ_cons (l : List Char) (rest : List (List Char)) (k : Nat) :
    keptPart (l :: rest) (k + 1) = l ++ '\n' :: keptPart rest k := by
  simp [keptPart]

theorem compressLoop_eq (m : Nat) :
    ∀ (lines : List (List Char)) (tokens : Nat) (acc : List Char),
    compressLoop m lines tokens acc = acc ++ keptPart lines (keepCount m lines tokens) := by
  intro lines
  induction lines with
  | nil => intro tokens acc; simp [compressLoop, keepCount, keptPart]
  | cons line rest ih =>
    intro tokens acc
    rw [compressLoop, keepCount]
    by_cases h : tokens + estimateTokens line ≤ m
    · rw [if_pos h, if_pos h, ih, keptPart_succ_cons]
      simp
    · rw [if_neg h, if_neg h, keptPart_zero]
      simp

theorem keepCount_le_length (m : Nat) :
    ∀ (lines : List (List Char)) (tokens : Nat), keepCount m lines tokens ≤ lines.length := by
  intro lines
  induction lines with
  | nil => intro tokens; simp [keepCount]
  | cons line rest ih =>
    intro tokens
    rw [keepCount]
    by_cases h : tokens + estimateTokens line ≤ m
    · rw [if_pos h]
      simpa using ih (tokens + estimateTokens line)
    · rw [if_neg h]
      simp

theorem keepCount_within (m : Nat) :
    ∀ (lines : List (List Char)) (tokens : Nat), tokens ≤ m →
    tokens + (((lines.take (keepCount m lines tokens)).map estimateTokens).sum) ≤ m := by
  intro lines
  induction lines with
  | nil => intro tokens ht; simpa [keepCount]
  | cons line rest ih =>
    intro tokens ht
    rw [keepCount]
    by_cases h : tokens + estimateTokens line ≤ m
    · rw [if_pos h]
      have := ih (tokens + estimateTokens line) h
      simp only [List.take_succ_cons, List.map_cons, List.sum_cons]
      omega
    · rw [if_neg h]
      simpa

theorem keepCount_break (m : Nat) :
    ∀ (lines : List (List Char)) (tokens : Nat),
    keepCount m lines tokens < lines.length →
    tokens + (((lines.take (keepCount m lines tokens + 1)).map estimateTokens).sum) > m := by
  intro lines
  induction lines with
  | nil => intro tokens h; simp [keepCount] at h
  | cons line rest ih =>
    intro tokens h
    rw [keepCount] at h ⊢
    by_cases hle : tokens + estimateTokens line ≤ m
    · rw [if_pos hle] at h ⊢
      rw [List.length_cons] at h
      have := ih (tokens + estimateTokens line) (by omega)
      simp only [List.take_succ_cons, List.map_cons, List.sum_cons]
      omega
    · rw [if_neg hle] at h ⊢
      simp only [List.take_succ_cons, List.take_zero, List.map_cons, List.map_nil,
        List.sum_cons, List.sum_nil]
      omega

theorem keepCount_drop_head_ne (m : Nat) :
    ∀ (lines : List (List Char)) (tokens : Nat), tokens ≤ m →
    keepCount m lines tokens < lines.length →
    ∃ l rest', lines.drop (keepCount m lines tokens) = l :: rest' ∧ l ≠ [] := by
  intro lines
  induction lines with
  | nil => intro tokens ht h; simp [keepCount] at h
  | cons line rest ih =>
    intro tokens ht h
    rw [keepCount] at h ⊢
    by_cases hle : tokens + estimateTokens line ≤ m
    · rw [if_pos hle] at h ⊢
      rw [List.length_cons] at h
      simpa using ih (tokens + estimateTokens line) hle (by omega)
    · rw [if_neg hle]
      refine ⟨line, rest, by simp, ?_⟩
      intro hnil
      rw [hnil] at hle
      simp [estimateTokens] at hle
      omega

theorem joinLines_eq_keptPart_append :
    ∀ (k : Nat) (lines : List (List Char)), k < lines.length →
    joinLines lines = keptPart lines k ++ joinLines (lines.drop k) := by
  intro k
  induction k with
  | zero => intro lines h; simp [keptPart_zero]
  | succ n ih =>
    intro lines h
    cases lines with
    | nil => simp at h
    | cons l rest =>
      rw [List.length_cons] at h
      have hrest : rest ≠ [] := by
        cases rest with
        | nil => simp only [List.length_nil] at h; omega
        | cons a t => simp
      rw [keptPart_succ_cons, joinLines_cons l rest hrest, List.drop_succ_cons,
        ih rest (by omega)]
      simp

theorem keptPart_full :
    ∀ lines : List (List Char), lines ≠ [] →
    keptPart lines lines.length = joinLines lines ++ ['\n'] := by
  intro lines
  induction lines with
  | nil => intro h; exact absurd rfl h
  | cons l rest ih =>
    intro _
    cases rest with
    | nil => simp [keptPart, joinLines]
    | cons a t =>
      rw [List.length_cons, keptPart_succ_cons, joinLines_cons l (a :: t) (by simp),
        ih (by simp)]
      simp

theorem joinLines_length_ge (l : List Char) (r : List (List Char)) :
    l.length ≤ (joinLines (l :: r)).length := by
  cases r with
  | nil => simp [joinLines]
  | cons a t =>
    rw [joinLines_cons l (a :: t) (by simp)]
    simp

/-- C7: for every input buffer and budget, `compressMemory` keeps the
greedy prefix of the buffer's lines — accumulated while the running
per-line token estimate (`ceil(chars/4)`) stays within the budget, the
first overflowing line and everything after it dropped — the kept text
is byte-identical to a prefix of the original whenever anything was
dropped, and the truncation marker is appended exactly when content was
dropped. -/
theorem C7_compress_greedy : ∀ (memory : List Char) (maxTokens : Nat),
    (((splitLines memory).take (keepCount maxTokens (splitLines memory) 0)).map
        estimateTokens).sum ≤ maxTokens ∧
    (keepCount maxTokens (splitLines memory) 0 < (splitLines memory).length →
      (((splitLines memory).take (keepCount maxTokens (splitLines memory) 0 + 1)).map
          estimateTokens).sum > maxTokens) ∧
    compressMemory memory maxTokens
      = keptPart (splitLines memory) (keepCount maxTokens (splitLines memory) 0) ++
        (if keepCount maxTokens (splitLines memory) 0 < (splitLines memory).length
          then truncMarker else []) ∧
    (keepCount maxTokens (splitLines memory) 0 < (splitLines memory).length →
      ∃ rest, keptPart (splitLines memory) (keepCount maxTokens (splitLines memory) 0)
        ++ rest = memory ∧ rest ≠ []) ∧
    (keepCount maxTokens (splitLines memory) 0 = (splitLines memory).length →
      keptPart (splitLines memory) (keepCount maxTokens (splitLines memory) 0)
        = memory ++ ['\n']) := by
  intro memory maxTokens
  set lines := splitLines memory with hlines
  set k := keepCount maxTokens lines 0 with hk
  have hkle : k ≤ lines.length := keepCount_le_length maxTokens lines 0
  have hwithin : ((lines.take k).map estimateTokens).sum ≤ maxTokens := by
    simpa using keepCount_within maxTokens lines 0 (Nat.zero_le _)
  have hjoin : joinLines lines = memory := by rw [hlines, joinLines_splitLines]
  have hfull : k = lines.length → keptPart lines k = memory ++ ['\n'] := by
    intro he
    rw [he, keptPart_full lines (by rw [hlines]; exact splitLines_ne_nil memory), hjoin]
  have hdropped : k < lines.length →
      ∃ rest, keptPart lines k ++ rest = memory ∧ rest ≠ [] := by
    intro hlt
    obtain ⟨l, rest', hd, hne⟩ := keepCount_drop_head_ne maxTokens lines 0 (Nat.zero_le _) hlt
    refine ⟨joinLines (lines.drop k), ?_, ?_⟩
    · rw [← joinLines_eq_keptPart_append k lines hlt, hjoin]
    · rw [hd]
      intro habs
      have hge := joinLines_length_ge l rest'
      rw [habs] at hge
      simp only [List.length_nil, Nat.le_zero] at hge
      exact hne (List.eq_nil_of_length_eq_zero hge)
  have hout : compressMemory memory maxTokens
      = keptPart lines k ++ (if k < lines.length then truncMarker else []) := by
    rw [compressMemory]
    simp only [← hlines, ← hk]
    rw [compressLoop_eq maxTokens lines 0 [], List.nil_append]
    by_cases hlt : k < lines.length
    · obtain ⟨rest, hsum, hne⟩ := hdropped hlt
      have hlen : (keptPart lines k).length < memory.length := by
        rw [← hsum, List.length_append]
        cases rest with
        | nil => exact absurd rfl hne
        | cons a t => simp
      rw [if_pos hlen, if_pos hlt]
    · have he : k = lines.length := by omega
      have hlen : ¬ (keptPart lines k).length < memory.length := by
        rw [hfull he, List.length_append]
        simp
      rw [if_neg hlen, if_neg hlt, List.append_nil]
  exact ⟨hwithin, fun hlt => by simpa using keepCount_break maxTokens lines 0 hlt,
    hout, hdropped, hfull⟩

/-- C7 witness: the theorem applied to the buffer "aaaa\nbbbb\ncccc"
with budget 2 — two lines kept, one dropped, marker appended. -/
theorem C7_compress_greedy_witness :
    ((((splitLines "aaaa\nbbbb\ncccc".toList).take
        (keepCount 2 (splitLines "aaaa\nbbbb\ncccc".toList) 0 + 1)).map
          estimateTokens).sum > 2) ∧
    ∃ rest, keptPart (splitLines "aaaa\nbbbb\ncccc".toList)
        (keepCount 2 (splitLines "aaaa\nbbbb\ncccc".toList) 0) ++ rest
      = "aaaa\nbbbb\ncccc".toList ∧ rest ≠ [] :=
  ⟨(C7_compress_greedy "aaaa\nbbbb\ncccc".toList 2).2.1 (by decide),
   (C7_compress_greedy "aaaa\nbbbb\ncccc".toList 2).2.2.2.1 (by decide)⟩

theorem chunks3_eq (l : List AgentTask) (h : l ≠ []) :
    chunks3 l = l.take 3 :: chunks3 (l.drop 3) := by
  match l with
  | [] => exact absurd rfl h
  | [a] => rfl
  | [a, b] => rfl
  | a :: b :: c :: rest => rfl

theorem chunks3_flatten (l : List AgentTask) : (chunks3 l).flatten = l := by
  have key : ∀ (n : Nat) (l : List AgentTask), l.length = n → (chunks3 l).flatten = l := by
    intro n
    induction n using Nat.strong_induction_on with
    | _ n ih =>
      intro l hl
      cases l with
      | nil => rfl
      | cons a rest =>
        rw [chunks3_eq (a :: rest) (by simp)]
        simp only [List.flatten_cons]
        rw [ih ((a :: rest).drop 3).length ?_ _ rfl]
        · exact List.take_append_drop 3 (a :: rest)
        · subst hl
          simp only [List.length_drop, List.length_cons]
          omega
  exact key l.length l rfl

theorem chunks3_batch_le (l : List AgentTask) : ∀ b ∈ chunks3 l, b.length ≤ 3 := by
  have key : ∀ (n : Nat) (l : List AgentTask), l.length = n → ∀ b ∈ chunks3 l,
      b.length ≤ 3 := by
    intro n
    induction n using Nat.strong_induction_on with
    | _ n ih =>
      intro l hl
      cases l with
      | nil => intro b hb; simp [chunks3] at hb
      | cons a rest =>
        rw [chunks3_eq (a :: rest) (by simp)]
        intro b hb
        rcases List.mem_cons.mp hb with hb | hb
        · subst hb
          simp [List.length_take]
        · exact ih ((a :: rest).drop 3).length
            (by subst hl; simp only [List.length_drop, List.length_cons]; omega) _ rfl b hb
  exact key l.length l rfl

theorem chunks3_sizes_seven (tasks : List AgentTask) (h : tasks.length = 7) :
    (chunks3 tasks).map List.length = [3, 3, 1] := by
  have h0 : tasks ≠ [] := by
    intro habs; rw [habs] at h; simp at h
  have h3 : (tasks.drop 3) ≠ [] := by
    intro habs
    have := congrArg List.length habs
    simp [h] at this
  have h6 : ((tasks.drop 3).drop 3) ≠ [] := by
    intro habs
    have := congrArg List.length habs
    simp [h] at this
  have h9 : (((tasks.drop 3).drop 3).drop 3) = [] := by
    apply List.eq_nil_of_length_eq_zero
    simp [h]
  rw [chunks3_eq tasks h0, chunks3_eq (tasks.drop 3) h3, chunks3_eq ((tasks.drop 3).drop 3) h6,
    h9]
  rw [chunks3]
  simp [List.length_take, List.length_drop, h]

theorem openCount_append (a b : List BatchEvent) :
    openCount (a ++ b) = openCount a + openCount b := by
  simp [openCount]

theorem openCount_take_starts (i : Nat) (d : List AgentTask) (n : Nat) :
    openCount ((d.map (fun t => BatchEvent.start i t.id)).take n)
      = ((min n d.length : Nat) : Int) := by
  induction d generalizing n with
  | nil => simp [openCount]
  | cons a t ih =>
    cases n with
    | zero => simp [openCount]
    | succ m =>
      simp only [List.map_cons, List.take_succ_cons, openCount, List.map_cons, List.sum_cons,
        BatchEvent.delta]
      have hm := ih m
      rw [openCount] at hm
      rw [hm]
      simp only [List.length_cons]
      omega

theorem openCount_take_finishes (i : Nat) (f : List AgentTask) (n : Nat) :
    openCount ((f.map (fun t => BatchEvent.finish i t.id)).take n)
      = -((min n f.length : Nat) : Int) := by
  induction f generalizing n with
  | nil => simp [openCount]
  | cons a t ih =>
    cases n with
    | zero => simp [openCount]
    | succ m =>
      simp only [List.map_cons, List.take_succ_cons, openCount, List.map_cons, List.sum_cons,
        BatchEvent.delta]
      have hm := ih m
      rw [openCount] at hm
      rw [hm]
      simp only [List.length_cons]
      omega

theorem openCount_take_block (i : Nat) (d f : List AgentTask) (n : Nat) (hd : d.length ≤ 3)
    (hf : f.length = d.length) :
    openCount ((blockTrace i d f).take n) ≤ 3 ∧
    ((blockTrace i d f).length ≤ n → openCount ((blockTrace i d f).take n) = 0) := by
  rw [blockTrace, List.take_append_eq_append_take, openCount_append, openCount_take_starts,
    openCount_take_finishes, List.length_map]
  constructor
  · have h1 : min n d.length ≤ d.length := Nat.min_le_right n d.length
    omega
  · intro hn
    rw [List.length_append, List.length_map, List.length_map] at hn
    have e1 : min n d.length = d.length := by omega
    have e2 : min (n - d.length) f.length = f.length := by omega
    rw [e1, e2, hf]
    omega

theorem openCount_take_scheduleTraceFrom (ps : List (List AgentTask × List AgentTask))
    (hps : ∀ p ∈ ps, p.1.length ≤ 3 ∧ p.2.length = p.1.length) :
    ∀ (idx n : Nat), openCount ((scheduleTraceFrom idx ps).take n) ≤ 3 := by
  induction ps with
  | nil => intro idx n; simp [scheduleTraceFrom, openCount]
  | cons p rest ih =>
    intro idx n
    obtain ⟨h1, h2⟩ := hps p (List.mem_cons_self p rest)
    rw [scheduleTraceFrom, List.take_append_eq_append_take, openCount_append]
    obtain ⟨hb1, hb2⟩ := openCount_take_block idx p.1 p.2 n h1 h2
    by_cases hn : (blockTrace idx p.1 p.2).length ≤ n
    · rw [hb2 hn]
      have := ih (fun q hq => hps q (List.mem_cons_of_mem p hq)) (idx + 1)
        (n - (blockTrace idx p.1 p.2).length)
      omega
    · have hz : n - (blockTrace idx p.1 p.2).length = 0 := by omega
      rw [hz, List.take_zero]
      have hz2 : openCount ([] : List BatchEvent) = 0 := rfl
      rw [hz2]
      omega

theorem batchOf_mem_blockTrace (i : Nat) (d f : List AgentTask) (e : BatchEvent)
    (h : e ∈ blockTrace i d f) : e.batchOf = i := by
  rw [blockTrace] at h
  rcases List.mem_append.mp h with h | h <;>
    · obtain ⟨t, _, rfl⟩ := List.mem_map.mp h
      rfl

theorem batchOf_mem_scheduleTraceFrom (ps : List (List AgentTask × List AgentTask)) :
    ∀ (idx : Nat) (e : BatchEvent), e ∈ scheduleTraceFrom idx ps → idx ≤ e.batchOf := by
  induction ps with
  | nil => intro idx e h; simp [scheduleTraceFrom] at h
  | cons p rest ih =>
    intro idx e h
    rw [scheduleTraceFrom] at h
    rcases List.mem_append.mp h with h | h
    · rw [batchOf_mem_blockTrace idx p.1 p.2 e h]
    · have := ih (idx + 1) e h
      omega

theorem pairwise_const_batch (l : List BatchEvent) (i : Nat) (h : ∀ e ∈ l, e.batchOf = i) :
    l.Pairwise (fun a b => a.batchOf ≤ b.batchOf) := by
  induction l with
  | nil => exact List.Pairwise.nil
  | cons a t ih =>
    refine List.Pairwise.cons ?_ (ih (fun e he => h e (List.mem_cons_of_mem a he)))
    intro b hb
    rw [h a (List.mem_cons_self a t), h b (List.mem_cons_of_mem a hb)]

theorem pairwise_batch_scheduleTraceFrom (ps : List (List AgentTask × List AgentTask)) :
    ∀ idx : Nat,
    (scheduleTraceFrom idx ps).Pairwise (fun a b => a.batchOf ≤ b.batchOf) := by
  induction ps with
  | nil => intro idx; exact List.Pairwise.nil
  | cons p rest ih =>
    intro idx
    rw [scheduleTraceFrom]
    refine List.pairwise_append.mpr ⟨?_, ih (idx + 1), ?_⟩
    · exact pairwise_const_batch _ idx (batchOf_mem_blockTrace idx p.1 p.2)
    · intro a ha b hb
      rw [batchOf_mem_blockTrace idx p.1 p.2 a ha]
      have := batchOf_mem_scheduleTraceFrom rest (idx + 1) b hb
      omega

/-- C4: `executeTasks` partitions the task list into contiguous batches
of 3 in original order (for 7 tasks: sizes 3, 3, 1, i.e. exactly 3
batches); in every schedule in which each batch's tasks are dispatched
together and settle in any order before the next batch starts, the
number of in-flight tasks never exceeds 3, and no event of a later
batch ever precedes an event of an earlier batch. -/
theorem C4_batch_concurrency :
    ∀ (tasks : List AgentTask) (pairs : List (List AgentTask × List AgentTask)),
    pairs.map Prod.fst = chunks3 tasks →
    (∀ p ∈ pairs, p.2.Perm p.1) →
    ((chunks3 tasks).flatten = tasks ∧ ∀ b ∈ chunks3 tasks, b.length ≤ 3) ∧
    (tasks.length = 7 → (chunks3 tasks).map List.length = [3, 3, 1]) ∧
    (∀ n, openCount ((scheduleTrace pairs).take n) ≤ 3) ∧
    (∀ i j : Fin (scheduleTrace pairs).length,
      ((scheduleTrace pairs).get i).batchOf < ((scheduleTrace pairs).get j).batchOf →
      (i : Nat) < j) := by
  intro tasks pairs hfst hperm
  have hps : ∀ p ∈ pairs, p.1.length ≤ 3 ∧ p.2.length = p.1.length := by
    intro p hp
    constructor
    · apply chunks3_batch_le tasks
      rw [← hfst]
      exact List.mem_map_of_mem Prod.fst hp
    · exact (hperm p hp).length_eq
  refine ⟨⟨chunks3_flatten tasks, chunks3_batch_le tasks⟩, chunks3_sizes_seven tasks, ?_, ?_⟩
  · intro n
    exact openCount_take_scheduleTraceFrom pairs hps 0 n
  · intro i j hij
    have hpw : (scheduleTrace pairs).Pairwise (fun a b => a.batchOf ≤ b.batchOf) :=
      pairwise_batch_scheduleTraceFrom pairs 0
    rw [List.pairwise_iff_get] at hpw
    by_contra hle
    push_neg at hle
    rcases Nat.eq_or_lt_of_le hle with heq | hlt
    · have hfin : j = i := Fin.ext heq
      subst hfin
      omega
    · have hji : j < i := by
        rw [Fin.lt_def]
        exact hlt
      have := hpw j i hji
      omega

/-- C4 witness: seven concrete tasks, batches settling in dispatch
order — batch sizes [3, 3, 1] and in-flight count at any schedule
prefix of length 4 at most 3. -/
theorem C4_batch_concurrency_witness :
    (chunks3 ((List.range 7).map
        (fun i => ⟨i, "searcher", "t", .idle, 0, 0, none, none⟩))).map List.length
      = [3, 3, 1] ∧
    openCount ((scheduleTrace ((chunks3 ((List.range 7).map
        (fun i => ⟨i, "searcher", "t", .idle, 0, 0, none, none⟩))).map
          (fun b => (b, b)))).take 4) ≤ 3 := by
  have h := C4_batch_concurrency
    ((List.range 7).map (fun i => ⟨i, "searcher", "t", .idle, 0, 0, none, none⟩))
    ((chunks3 ((List.range 7).map
        (fun i => ⟨i, "searcher", "t", .idle, 0, 0, none, none⟩))).map (fun b => (b, b)))
    (by
      rw [List.map_map]
      have hc : (Prod.fst ∘ fun b : List AgentTask => (b, b)) = id := rfl
      rw [hc, List.map_id])
    (by intro p hp; obtain ⟨b, _, rfl⟩ := List.mem_map.mp hp; exact List.Perm.refl b)
  exact ⟨h.2.1 (by simp), h.2.2.1 4⟩

theorem mmFind_filter (l : List (Nat × ResearchMemory)) (sid0 sid : Nat) :
    mmFind (l.filter (fun p => p.1 ≠ sid0)) sid
      = if sid = sid0 then none else mmFind l sid := by
  induction l with
  | nil => by_cases h : sid = sid0 <;> simp [mmFind, h]
  | cons p rest ih =>
    obtain ⟨k, b⟩ := p
    rw [List.filter_cons]
    by_cases hk : k = sid0
    · rw [show (decide (((k, b) : Nat × ResearchMemory).1 ≠ sid0)) = false by simp [hk],
        if_neg Bool.false_ne_true]
      rw [ih]
      by_cases hs : sid = sid0
      · simp [hs]
      · have hsk : ¬ sid = k := by omega
        simp [mmFind, hs, hsk]
    · rw [show (decide (((k, b) : Nat × ResearchMemory).1 ≠ sid0)) = true by simp [hk],
        if_pos rfl]
      by_cases hs : sid = k
      · subst hs
        simp [mmFind, hk]
      · rw [mmFind, if_neg hs, ih, mmFind, if_neg hs]

theorem mmReach_findings_nil :
    ∀ st, MMReach st → ∀ sid m, getMemory st sid = some m → m.findings = [] := by
  intro st h
  induction h with
  | fresh => intro sid m hm; simp [getMemory, mmFind] at hm
  | init st0 sid0 now0 _ ih =>
    intro sid m hm
    rw [initMemory, getMemory_mmSet] at hm
    by_cases hs : sid = sid0
    · rw [if_pos hs] at hm
      injection hm with hm'
      rw [← hm']
    · rw [if_neg hs] at hm
      exact ih sid m hm
  | shortTerm st0 sid0 ctx now0 _ ih =>
    intro sid m hm
    rw [updateShortTermMemory] at hm
    cases hm0 : getMemory st0 sid0 with
    | none => rw [hm0] at hm; exact ih sid m hm
    | some m0 =>
      rw [hm0] at hm
      simp only [getMemory_mmSet] at hm
      by_cases hs : sid = sid0
      · rw [if_pos hs] at hm
        injection hm with hm'
        rw [← hm']
        simpa using ih sid0 m0 hm0
      · rw [if_neg hs] at hm
        exact ih sid m hm
  | longTerm st0 sid0 fs now0 _ ih =>
    intro sid m hm
    rw [updateLongTermMemory] at hm
    cases hm0 : getMemory st0 sid0 with
    | none => rw [hm0] at hm; exact ih sid m hm
    | some m0 =>
      rw [hm0] at hm
      simp only [getMemory_mmSet] at hm
      by_cases hs : sid = sid0
      · rw [if_pos hs] at hm
        injection hm with hm'
        rw [← hm']
        simpa using ih sid0 m0 hm0
      · rw [if_neg hs] at hm
        exact ih sid m hm
  | clear st0 sid0 _ ih =>
    intro sid m hm
    rw [clearMemory] at hm
    have := mmFind_filter st0.memories sid0 sid
    rw [getMemory] at hm
    rw [this] at hm
    by_cases hs : sid = sid0
    · rw [if_pos hs] at hm
      cases hm
    · rw [if_neg hs] at hm
      exact ih sid m hm

/-- C10: the planning-phase staleness check always runs over an empty
artifact list — `findings` is `[]` at initialization and no
memory-manager operation ever grows it (invariant over all reachable
manager states), and each coordinator starts from a fresh manager — so
`staleFindings` is empty and the stale-findings warning is never
emitted on any `executeResearch` invocation. -/
theorem C10_stale_warning_never_fires :
    (∀ st, MMReach st → ∀ sid m, getMemory st sid = some m → m.findings = []) ∧
    (∀ (now : Int) (sid : Nat), planningStaleFindings now sid = []) ∧
    (∀ (o : Oracles) (now : Int) (sid : Nat) (query : String) (ctr : Nat),
      (runResearch o now sid query ctr).staleWarned = false) := by
  have hstale : ∀ (now : Int) (sid : Nat), planningStaleFindings now sid = [] := by
    intro now sid
    rw [planningStaleFindings, initMemory, getMemory_mmSet]
    simp [emptyMemory, verifyFreshness]
  refine ⟨mmReach_findings_nil, hstale, ?_⟩
  intro o now sid query ctr
  rw [runResearch]
  simp [hstale]

/-- C10 witness: the invariant applied to a reachable manager state
(fresh, initialized for session 1, then a short-term append), plus the
planning-phase check and warning flag at a concrete run. -/
theorem C10_stale_warning_never_fires_witness :
    (⟨1, "\nx".toList, [], [], 0⟩ : ResearchMemory).findings = [] ∧
    planningStaleFindings 0 1 = [] ∧
    (runResearch ⟨fun _ => .throw "a", fun _ => .throw "b", fun _ => .throw "c",
        fun _ => .throw "d"⟩ 0 1 "q" 0).staleWarned = false :=
  ⟨C10_stale_warning_never_fires.1
      (updateShortTermMemory (initMemory ⟨[]⟩ 1 0) 1 "x".toList 0)
      (MMReach.shortTerm (initMemory ⟨[]⟩ 1 0) 1 "x".toList 0
        (MMReach.init ⟨[]⟩ 1 0 MMReach.fresh))
      1 ⟨1, "\nx".toList, [], [], 0⟩ (by decide),
   C10_stale_warning_never_fires.2.1 0 1,
   C10_stale_warning_never_fires.2.2 _ 0 1 "q" 0⟩

theorem synthesizeFindingsE_executeE (b : LLMBehavior) (now : Int) (ctr : Nat) :
    synthesizeFindingsE (executeE b now) now ctr
      = .ok ((execute b now
          { id := ctr, agentRole := "orchestrator",
            description := "Synthesize all research findings into a comprehensive report",
            status := .idle, createdAt := now, updatedAt := now }).result, ctr + 1) := rfl

/-- C8: whenever a research run completes, the `startResearch` endpoint
returns `findingsCount` equal to the length of the run's final
verified-artifact list and `citationsCount` equal to the length of the
accumulated citation list — and the returned `findings`/`citations` are
exactly the verification-stage output and the searching-stage citation
accumulator. -/
theorem C8_counts :
    ∀ (o : Oracles) (now : Int) (sid : Nat) (query : String) (ctr : Nat)
      (res : ResearchResult),
    10 ≤ query.length →
    (runResearch o now sid query ctr).result = .ok res →
    (∃ s a v, runStages o now sid query ctr = some (s, a, v) ∧
      res.findings = v.artifacts ∧ res.citations = s.citations) ∧
    startResearch o now sid query ctr
      = .ok { success := true, report := res.report,
              findingsCount := res.findings.length,
              citationsCount := res.citations.length,
              executionTime := res.executionTime } := by
  intro o now sid query ctr res hq hok
  refine ⟨?_, ?_⟩
  · have hok' : (runResearchBody o now sid query ctr).1 = .ok res := hok
    rw [runResearchBody] at hok'
    cases hp : planResearchE (executeE o.orch now) now sid query ctr with
    | error m => simp [hp] at hok'
    | ok pr =>
      obtain ⟨plan, ctr1⟩ := pr
      cases hd : decomposeTasksE (executeE o.orch now) now query ctr1 with
      | error m => simp [hp, hd] at hok'
      | ok dr =>
        obtain ⟨tasks, ctr2⟩ := dr
        simp only [hp, hd, synthesizeFindingsE_executeE, Except.ok.injEq] at hok'
        subst hok'
        exact ⟨executeTasks (executeE o.search now) now tasks ctr2,
          analyzeFindings (executeE o.extract now) now
            (executeTasks (executeE o.search now) now tasks ctr2).findings
            (executeTasks (executeE o.search now) now tasks ctr2).ctr,
          verifyFindings (executeE o.fact now) now
            ((executeTasks (executeE o.search now) now tasks ctr2).findings ++
              (analyzeFindings (executeE o.extract now) now
                (executeTasks (executeE o.search now) now tasks ctr2).findings
                (executeTasks (executeE o.search now) now tasks ctr2).ctr).artifacts)
            (analyzeFindings (executeE o.extract now) now
              (executeTasks (executeE o.search now) now tasks ctr2).findings
              (executeTasks (executeE o.search now) now tasks ctr2).ctr).ctr,
          by simp only [runStages, hp, hd], rfl, rfl⟩
  · rw [startResearch, if_neg (by omega), hok]

/-- C8 witness: a run whose decomposition parses zero tasks completes
with zero findings and citations, and the endpoint reports counts 0
and 0. -/
theorem C8_counts_witness :
    (∃ s a v, runStages ⟨fun _ => .message (some "no bullets") 0,
        fun _ => .message (some "no bullets") 0, fun _ => .message (some "no bullets") 0,
        fun _ => .message (some "no bullets") 0⟩ 0 1 "what is alpha?" 0
        = some (s, a, v) ∧
      ([] : List ResearchArtifact) = v.artifacts ∧ ([] : List Citation) = s.citations) ∧
    startResearch ⟨fun _ => .message (some "no bullets") 0,
        fun _ => .message (some "no bullets") 0, fun _ => .message (some "no bullets") 0,
        fun _ => .message (some "no bullets") 0⟩ 0 1 "what is alpha?" 0
      = .ok { success := true, report := some (.vStr "no bullets"),
              findingsCount := 0, citationsCount := 0, executionTime := 0 } :=
  C8_counts ⟨fun _ => .message (some "no bullets") 0, fun _ => .message (some "no bullets") 0,
      fun _ => .message (some "no bullets") 0, fun _ => .message (some "no bullets") 0⟩
    0 1 "what is alpha?" 0
    { sessionId := 1, query := "what is alpha?", report := some (.vStr "no bullets"),
      findings := [], citations := [], executionTime := 0 }
    (by decide) rfl

end AgentJ
